import Mathlib

/-!
Verification of the xapi client's session layer against its specification.

The Go source is shallowly embedded: Go strings become `List Char`
(`GoStr`), pure functions become Lean functions, and the stateful client
becomes explicit state passing over a `ClientState` record.  External
collaborators (the WebSocket transport, the JSON codec, the JSONPath
evaluator) are abstracted at their boundary exactly as the spec scopes
them: the transport's outcome and the evaluator's result are parameters
of the operations that consume them.
-/

/-- A Go string, embedded as its list of characters. -/
abbrev GoStr := List Char

/-- Opaque stand-in for one `interface{}` value returned by a JSONPath
query (`jp.Expr.Get` returns `[]interface{}`); the dispatch logic only
inspects the length of the result list, never the values. -/
abbrev Val := Nat

/-- Opaque identity of a Go `CallbackFunc` value.  A nil function value is
modelled as `none`, a non-nil one as `some` of its identity; the client
never calls the function itself inside the code under verification (it is
spawned with `go cbFunc(res)`). -/
abbrev Cb := Nat

/-- Whitespace class used by `strings.Fields` (client code only ever uses
the space character inside paths; the ASCII part of `unicode.IsSpace` is
modelled, the Latin-1/Unicode spaces are immaterial to every claim). -/
def isSpace (c : Char) : Bool :=
  c = ' ' ∨ c = '\t' ∨ c = '\n' ∨ c = '\x0b' ∨ c = '\x0c' ∨ c = '\r'

/-- Accumulator form of `strings.Fields`: splits around runs of
whitespace, producing no empty fields. -/
def fieldsAux : GoStr → GoStr → List GoStr
  | [], [] => []
  | [], acc => [acc.reverse]
  | c :: cs, acc =>
    if isSpace c then
      match acc with
      | [] => fieldsAux cs []
      | _ => acc.reverse :: fieldsAux cs []
    else fieldsAux cs (c :: acc)

/-- Go `strings.Fields`: the whitespace-delimited segments of a string. -/
def fields (s : GoStr) : List GoStr := fieldsAux s []

/-- The map literal `{"Query": strings.Fields(string(p))}` returned by
`Path.toSubQuery` (src/unnamed/part_000 lines 14-18). -/
structure SubQuery where
  Query : List GoStr
  deriving DecidableEq

/-- The map literal `{"Path": strings.Fields(string(p))}` returned by
`Path.toGetParams` (src/unnamed/part_000 lines 20-24). -/
structure GetParams where
  Path : List GoStr
  deriving DecidableEq

namespace Path

/-- `Path.toSubQuery` from src/unnamed/part_000. -/
def toSubQuery (p : GoStr) : SubQuery := ⟨fields p⟩

/-- `Path.toGetParams` from src/unnamed/part_000. -/
def toGetParams (p : GoStr) : GetParams := ⟨fields p⟩

/-- `Path.toJSONPath` from src/unnamed/part_000 lines 26-33: starts from
the literal `"$."` and appends `"." + x` for every field `x`
(`fmt.Sprintf("%s.%s", result, x)`). -/
def toJSONPath (p : GoStr) : GoStr :=
  (fields p).foldl (fun r x => r ++ ('.' :: x)) "$.".data

end Path

/-- Folding the `Sprintf` step over a segment list is appending one
dot-prefixed copy of each segment. -/
theorem foldl_dot_append (l : List GoStr) :
    ∀ acc : GoStr, l.foldl (fun r x => r ++ ('.' :: x)) acc
      = acc ++ l.flatMap (fun s => '.' :: s) := by
  induction l with
  | nil => intro acc; simp
  | cons x xs ih =>
    intro acc
    simp only [List.foldl_cons, List.flatMap_cons, ih, List.append_assoc]

/-- Splitting a character list at every `'.'` (chunks between dots, kept
even when empty), accumulator form. -/
def splitOnDotAux : GoStr → GoStr → List GoStr
  | [], acc => [acc.reverse]
  | c :: cs, acc =>
    if c = '.' then acc.reverse :: splitOnDotAux cs []
    else splitOnDotAux cs (c :: acc)

/-- Splitting a character list at every `'.'`. -/
def splitOnDot (s : GoStr) : List GoStr := splitOnDotAux s []

theorem splitOnDotAux_append_nodot (s : GoStr) (hs : '.' ∉ s) :
    ∀ (acc t : GoStr),
      splitOnDotAux (s ++ t) acc = splitOnDotAux t (s.reverse ++ acc) := by
  induction s with
  | nil => intro acc t; simp [splitOnDotAux]
  | cons c cs ih =>
    intro acc t
    have hc : ¬ c = '.' := fun h => hs (h ▸ List.mem_cons_self c cs)
    have hcs : '.' ∉ cs := fun h => hs (List.mem_cons_of_mem c h)
    rw [List.cons_append]
    simp only [splitOnDotAux]
    rw [if_neg hc, ih hcs (c :: acc) t, List.reverse_cons, List.append_assoc,
      List.singleton_append]

theorem splitOnDotAux_join (l : List GoStr) (hl : ∀ s ∈ l, '.' ∉ s) :
    ∀ acc : GoStr,
      splitOnDotAux (l.flatMap (fun s => '.' :: s)) acc = acc.reverse :: l := by
  induction l with
  | nil => intro acc; simp [splitOnDotAux]
  | cons s ls ih =>
    intro acc
    have hs : '.' ∉ s := hl s (List.mem_cons_self s ls)
    have hls : ∀ x ∈ ls, '.' ∉ x := fun x hx => hl x (List.mem_cons_of_mem s hx)
    rw [List.flatMap_cons, List.cons_append]
    simp only [splitOnDotAux, if_true]
    rw [splitOnDotAux_append_nodot s hs [] _, List.append_nil,
      ih hls s.reverse, List.reverse_reverse]

/-! ## Credential encoding (`encCreds`, src/client.go lines 582-590) -/

/-- The bytes of a Go string (`[]byte(s)` is the UTF-8 encoding; for the
ASCII strings every claim speaks about, that is one byte per character,
`Char.toNat`).  Theorems that rely on byte values carry an ASCII
hypothesis on their inputs. -/
def bytesOf (s : GoStr) : List Nat := s.map Char.toNat

/-- The standard base64 alphabet used by Go's `base64.StdEncoding`. -/
def b64Alphabet : GoStr :=
  "ABCDEFGHIJKLMNOPQRSTUVWXYZabcdefghijklmnopqrstuvwxyz0123456789+/".data

/-- Character `n` of the standard base64 alphabet. -/
def b64Char (n : Nat) : Char := b64Alphabet.getD n 'A'

/-- Go `base64.StdEncoding.EncodeToString`: three bytes become four
alphabet characters; a trailing group of one or two bytes is padded
with `'='`. -/
def base64Encode : List Nat → GoStr
  | [] => []
  | [b1] => [b64Char (b1 / 4), b64Char (b1 % 4 * 16), '=', '=']
  | [b1, b2] =>
    [b64Char (b1 / 4), b64Char (b1 % 4 * 16 + b2 / 16), b64Char (b2 % 16 * 4), '=']
  | b1 :: b2 :: b3 :: rest =>
    [b64Char (b1 / 4), b64Char (b1 % 4 * 16 + b2 / 16),
     b64Char (b2 % 16 * 4 + b3 / 64), b64Char (b3 % 64)] ++ base64Encode rest

/-- The per-character effect of
`strings.NewReplacer("+", "-", "/", "_", "=", "")`: all three patterns
are single characters, so the replacer rewrites each character
independently. -/
def replaceChar (c : Char) : GoStr :=
  if c = '+' then ['-'] else if c = '/' then ['_'] else if c = '=' then [] else [c]

/-- `re.Replace` from `encCreds`. -/
def urlSafeReplace (s : GoStr) : GoStr := s.flatMap replaceChar

/-- The constant `credPrefix = "auth-"` from src/client.go line 23. -/
def credMarker : GoStr := "auth-".data

/-- The errors the client distinguishes (src/error.go), plus the wrapped
external failures that the session layer propagates (`writeError` for a
failed `WriteMessage`, `jpathError` for a `jp.ParseString` failure,
`remoteError` for a `JSONRPCError` built from an inbound error frame). -/
inductive XErr where
  | invalidCredentials
  | missingChannel
  | missingIDField
  | notConnected
  | invalidMsg
  | unknownResponse
  | unsupportedMsg
  | missingData
  | missingCallback
  | jpathError
  | writeError
  | remoteError (code : Int) (message : GoStr)
  deriving DecidableEq

/-- `encCreds` from src/client.go lines 582-590: reject an empty user or
password, otherwise prefix the replaced standard base64 encoding of
`user + ":" + password`. -/
def encCreds (user password : GoStr) : Except XErr GoStr :=
  if user = [] ∨ password = [] then .error .invalidCredentials
  else .ok (credMarker ++ urlSafeReplace (base64Encode (bytesOf (user ++ [':'] ++ password))))

/-- Modelled from the spec: the base64url encoding with the URL-safe
alphabet (`'-'` and `'_'` in place of `'+'` and `'/'`) and no padding
characters.  Stated independently of `base64Encode` so that `encCreds`
can be proved to refine it. -/
def b64UrlAlphabet : GoStr :=
  "ABCDEFGHIJKLMNOPQRSTUVWXYZabcdefghijklmnopqrstuvwxyz0123456789-_".data

/-- Character `n` of the URL-safe base64 alphabet. -/
def b64UrlChar (n : Nat) : Char := b64UrlAlphabet.getD n 'A'

/-- Modelled from the spec: URL-safe, unpadded base64. -/
def base64UrlNoPad : List Nat → GoStr
  | [] => []
  | [b1] => [b64UrlChar (b1 / 4), b64UrlChar (b1 % 4 * 16)]
  | [b1, b2] =>
    [b64UrlChar (b1 / 4), b64UrlChar (b1 % 4 * 16 + b2 / 16), b64UrlChar (b2 % 16 * 4)]
  | b1 :: b2 :: b3 :: rest =>
    [b64UrlChar (b1 / 4), b64UrlChar (b1 % 4 * 16 + b2 / 16),
     b64UrlChar (b2 % 16 * 4 + b3 / 64), b64UrlChar (b3 % 64)] ++ base64UrlNoPad rest

theorem replaceChar_b64 : ∀ n, n < 64 → replaceChar (b64Char n) = [b64UrlChar n] := by
  decide

theorem urlSafeReplace_append (s t : GoStr) :
    urlSafeReplace (s ++ t) = urlSafeReplace s ++ urlSafeReplace t := by
  simp [urlSafeReplace]

theorem replaceChar_safe (c x : Char) (hx : x ∈ replaceChar c) :
    x ≠ '+' ∧ x ≠ '/' ∧ x ≠ '=' := by
  unfold replaceChar at hx
  by_cases h1 : c = '+'
  · simp [h1] at hx
    simp [hx]
  · by_cases h2 : c = '/'
    · simp [h1, h2] at hx
      simp [hx]
    · by_cases h3 : c = '='
      · simp [h1, h2, h3] at hx
      · simp [h1, h2, h3] at hx
        subst hx
        exact ⟨h1, h2, h3⟩

theorem urlSafeReplace_safe (s : GoStr) (x : Char) (hx : x ∈ urlSafeReplace s) :
    x ≠ '+' ∧ x ≠ '/' ∧ x ≠ '=' := by
  unfold urlSafeReplace at hx
  rcases List.mem_flatMap.mp hx with ⟨c, _, hc⟩
  exact replaceChar_safe c x hc

theorem replaceChar_pad : replaceChar '=' = [] := rfl

theorem urlSafeReplace_base64 :
    ∀ bs : List Nat, (∀ b ∈ bs, b < 256) →
      urlSafeReplace (base64Encode bs) = base64UrlNoPad bs
  | [], _ => rfl
  | [b1], h => by
    have hb1 : b1 < 256 := h b1 (by simp)
    have h1 : b1 / 4 < 64 := by omega
    have h2 : b1 % 4 * 16 < 64 := by omega
    simp only [base64Encode, base64UrlNoPad, urlSafeReplace, List.flatMap_cons,
      List.flatMap_nil, replaceChar_b64 _ h1, replaceChar_b64 _ h2, replaceChar_pad]
    rfl
  | [b1, b2], h => by
    have hb1 : b1 < 256 := h b1 (by simp)
    have hb2 : b2 < 256 := h b2 (by simp)
    have h1 : b1 / 4 < 64 := by omega
    have h2 : b1 % 4 * 16 + b2 / 16 < 64 := by omega
    have h3 : b2 % 16 * 4 < 64 := by omega
    simp only [base64Encode, base64UrlNoPad, urlSafeReplace, List.flatMap_cons,
      List.flatMap_nil, replaceChar_b64 _ h1, replaceChar_b64 _ h2,
      replaceChar_b64 _ h3, replaceChar_pad]
    rfl
  | b1 :: b2 :: b3 :: rest, h => by
    have hb1 : b1 < 256 := h b1 (by simp)
    have hb2 : b2 < 256 := h b2 (by simp)
    have hb3 : b3 < 256 := h b3 (by simp)
    have hrest : ∀ b ∈ rest, b < 256 := fun b hb => h b (by simp [hb])
    have h1 : b1 / 4 < 64 := by omega
    have h2 : b1 % 4 * 16 + b2 / 16 < 64 := by omega
    have h3 : b2 % 16 * 4 + b3 / 64 < 64 := by omega
    have h4 : b3 % 64 < 64 := by omega
    simp only [base64Encode, base64UrlNoPad]
    rw [urlSafeReplace_append, urlSafeReplace_base64 rest hrest]
    simp only [urlSafeReplace, List.flatMap_cons, List.flatMap_nil,
      replaceChar_b64 _ h1, replaceChar_b64 _ h2, replaceChar_b64 _ h3,
      replaceChar_b64 _ h4]
    rfl

/-! ## The client's mutable state and its operations (src/client.go)

`Client` owns the rpc connection, the sequence counter, the callback
registry and the pending-response table.  The locks (`seqlock`, `cblock`,
`rclock`) serialize access to the three critical sections; the embedding
passes the state explicitly, so each Lean operation is one serialized Go
critical path. -/

/-- The shape of a decoded JSON-RPC result value (`interface{}` after
`json.Unmarshal`): an object, a number, a string, or any other shape.
`sendCommand`'s type switch accepts exactly the object and number
shapes. -/
inductive RVal where
  | mapVal
  | numVal (n : Nat)
  | strVal (s : GoStr)
  | otherVal
  deriving DecidableEq

/-- A value delivered into a pending response channel by the receive
loop: either a decoded result or an error value (`JSONRPCError` for an
error frame, `ErrInvalidMsg` for an invalid frame). -/
inductive ChanVal where
  | errVal (e : XErr)
  | dataVal (v : RVal)
  deriving DecidableEq

/-- The transport-level outcome of one `sendCommand` round trip:
`WriteMessage` fails, or a reply value is eventually delivered on the
response channel.  (There is no timeout: a caller whose reply never
arrives blocks forever, so only these two outcomes are observable.) -/
inductive SendOutcome where
  | writeFail
  | replied (v : ChanVal)
  deriving DecidableEq

/-- The `Client` struct's mutable session state (src/client.go lines
135-148): `client` is the rpc connection (`none` models a nil interface
value), `seq` the float64 sequence counter (only ever holding the
integers 0, 1, 2, …), `callbacks` the `map[Path]CallbackFunc` as an
association list in iteration order, and `responseChans` the key set of
`map[float64]chan interface{}`. -/
structure ClientState where
  client : Option Unit
  seq : Nat
  callbacks : List (GoStr × Option Cb)
  responseChans : List Nat
  deriving DecidableEq

/-- `c.seq++` on the float64 counter, for the integer values reachable
from 0: exact below `2^53 = 9007199254740992`; at `2^53` the sum
`2^53 + 1` is not representable in an IEEE-754 double and rounds
(ties-to-even) back to `2^53`, so the counter saturates there. -/
def fInc (n : Nat) : Nat := if n < 9007199254740992 then n + 1 else n

/-- Go map assignment `m[k] = v` on the association-list view: replaces
the value of an existing key in place, otherwise appends the new entry. -/
def mapInsert (k : GoStr) (v : Option Cb) :
    List (GoStr × Option Cb) → List (GoStr × Option Cb)
  | [] => [(k, v)]
  | (k2, v2) :: rest =>
    if k2 = k then (k, v) :: rest else (k2, v2) :: mapInsert k v rest

/-- Go `delete(m, k)` on the association-list view. -/
def mapDelete (k : GoStr) :
    List (GoStr × Option Cb) → List (GoStr × Option Cb)
  | [] => []
  | (k2, v2) :: rest =>
    if k2 = k then rest else (k2, v2) :: mapDelete k rest

/-- Go map lookup `m[k]` (present values only). -/
def lookupCb (k : GoStr) : List (GoStr × Option Cb) → Option (Option Cb)
  | [] => none
  | (k2, v2) :: rest => if k2 = k then some v2 else lookupCb k rest

/-- The keys of the registry, in iteration order. -/
def keysOf (l : List (GoStr × Option Cb)) : List GoStr := l.map Prod.fst

/-- How many registry entries carry a given path. -/
def countKey (k : GoStr) (l : List (GoStr × Option Cb)) : Nat :=
  (l.filter (fun kv => kv.1 = k)).length

/-- `sendCommand` (src/client.go lines 536-580): refuse when no
connection exists; otherwise take the next sequence id under `seqlock`,
register a response channel under it, write the frame, block on the
channel, and classify the delivered value (the deferred cleanup removes
the channel again, so the table is restored).  `out` is the transport's
behaviour for this round trip. -/
def sendCommand (st : ClientState) (out : SendOutcome) :
    Except XErr RVal × ClientState :=
  if st.client = none then (.error .notConnected, st)
  else
    let st1 : ClientState := { st with seq := fInc st.seq }
    match out with
    | .writeFail => (.error .writeError, st1)
    | .replied r =>
      match r with
      | .errVal e => (.error e, st1)
      | .dataVal .mapVal => (.ok .mapVal, st1)
      | .dataVal (.numVal n) => (.ok (.numVal n), st1)
      | .dataVal v => (.error .unknownResponse, st1)

/-- `Subscribe` (src/client.go lines 477-488): send the
`xFeedback/Subscribe` command for `path.toSubQuery()`; on failure return
the error with the registry untouched, on success record the
`{path, callback}` pair under `cblock` (the returned cancel handle is
`cancelFunc path`). -/
def Subscribe (st : ClientState) (p : GoStr) (cb : Option Cb)
    (out : SendOutcome) : Except XErr Unit × ClientState :=
  match sendCommand st out with
  | (.error e, st1) => (.error e, st1)
  | (.ok _, st1) => (.ok (), { st1 with callbacks := mapInsert p cb st1.callbacks })

/-- The closure returned by `cancelFunc` (src/client.go lines 524-534):
remove the registry entry under `cblock`, then send the
`xFeedback/Unsubscribe` command and return its outcome. -/
def cancelFunc (st : ClientState) (p : GoStr) (out : SendOutcome) :
    Except XErr RVal × ClientState :=
  sendCommand { st with callbacks := mapDelete p st.callbacks } out

/-- The map resets `c.callbacks = make(...)`, `c.responseChans = make(...)`
performed by `ConnectContext` (src/client.go lines 162-163) once a
connection is established. -/
def connectInit (st : ClientState) : ClientState :=
  { st with client := some (), callbacks := [], responseChans := [] }

/-- What one call to `Close` (src/client.go lines 305-311) does. -/
inductive CloseOutcome where
  | closedOk
  | closeFailed
  | nilPanic
  deriving DecidableEq

/-- `Close` (src/client.go lines 305-311): `c.client.Close()` with no nil
check first.  When `c.client` is a nil interface value (no connect ever
succeeded) the method call is a nil dereference and the Go runtime
panics; otherwise the underlying close's error (`und`) is wrapped or nil
is returned. -/
def CloseClient (st : ClientState) (und : Except Unit Unit) : CloseOutcome :=
  match st.client with
  | none => .nilPanic
  | some _ =>
    match und with
    | .ok _ => .closedOk
    | .error _ => .closeFailed

/-! ## Notification dispatch (`runCallbacks`, src/client.go lines 251-293)

The payload has already been parsed (`oj.ParseString`) and the JSONPath
evaluator is an external collaborator, so the composite
`jp.ParseString(query)` + `Get(event)` for this one notification is
abstracted as `q : GoStr → Except Unit (List Val)`: applied to a
subscription's rendered query string it yields either the evaluator's
match list or a `jp.ParseString` failure. -/

/-- The `for k, v := range c.callbacks` loop of `runCallbacks`: the local
pair `(res, cbFunc)` starts as `(nil, nil)` and is assigned — and the
loop left — only when an entry's query matches with a non-empty result
*and* its callback value is non-nil (`len(r) > 0 && v != nil`).  A
`jp.ParseString` failure aborts the whole dispatch. -/
def cbLoop (q : GoStr → Except Unit (List Val)) :
    List (GoStr × Option Cb) → Except XErr (Option (List Val) × Option Cb)
  | [] => .ok (none, none)
  | (k, v) :: rest =>
    match q (Path.toJSONPath k) with
    | .error _ => .error .jpathError
    | .ok r =>
      if 0 < r.length ∧ v.isSome then .ok (some r, v) else cbLoop q rest

/-- `runCallbacks`: run the loop, then fail with `ErrMissingData` when
`res` is still nil, with `ErrMissingCallback` when `cbFunc` is still
nil, and otherwise spawn `go cbFunc(res)` — modelled as returning the
invoked callback together with its argument. -/
def runCallbacks (q : GoStr → Except Unit (List Val))
    (cbs : List (GoStr × Option Cb)) : Except XErr (List Val × Cb) :=
  match cbLoop q cbs with
  | .error e => .error e
  | .ok (none, _) => .error .missingData
  | .ok (some _, none) => .error .missingCallback
  | .ok (some r, some f) => .ok (r, f)

/-! ## The receive loop (`Run`/`runLoop`/`chanResponse`, src/client.go
lines 194-249 and 505-522) -/

/-- One inbound frame, classified the way `msg.GetType()` classifies it.
`id` is `msg.ID` seen through the `msg.ID.(float64)` assertion (`none`
when the id is absent or not a number); a success frame carries its
decoded `Result`; a notification carries the evaluator for its parsed
payload. -/
inductive Frame where
  | requestMsg
  | errorMsg (id : Option Nat) (code : Int) (message : GoStr)
  | invalidMsg (id : Option Nat)
  | successMsg (id : Option Nat) (res : RVal)
  | notificationMsg (q : GoStr → Except Unit (List Val))

/-- `chanResponse` (src/client.go lines 505-522): fail with
`ErrMissingIDField` when the id is not a number, with
`ErrMissingChannel` when no pending entry holds the id, otherwise
deliver `res` into the channel. -/
def chanResponse (pending : List Nat) (id : Option Nat) (res : ChanVal) :
    Except XErr Unit :=
  match id with
  | none => .error .missingIDField
  | some k => if k ∈ pending then .ok () else .error .missingChannel

/-- `runLoop` (src/client.go lines 206-249): read one frame and route
it.  Every error — a request-type frame, a `chanResponse` failure, or a
`runCallbacks` failure — is returned to `Run`. -/
def runLoop (st : ClientState) (f : Frame) : Except XErr ClientState :=
  match f with
  | .requestMsg => .error .unsupportedMsg
  | .errorMsg id code message =>
    (chanResponse st.responseChans id (.errVal (.remoteError code message))).map
      fun _ => st
  | .invalidMsg id =>
    (chanResponse st.responseChans id (.errVal .invalidMsg)).map fun _ => st
  | .successMsg id res =>
    (chanResponse st.responseChans id (.dataVal res)).map fun _ => st
  | .notificationMsg q =>
    match runCallbacks q st.callbacks with
    | .error e => .error e
    | .ok _ => .ok st

/-- The `for` loop of `Run` over the frames the transport delivers: stop
with the first `runLoop` error, and survive to the end of the inbound
stream otherwise. -/
def runFrames (st : ClientState) : List Frame → Except XErr ClientState
  | [] => .ok st
  | f :: fs =>
    match runLoop st f with
    | .error e => .error e
    | .ok st2 => runFrames st2 fs

/-- `Run` (src/client.go lines 194-204): refuse when not connected, then
loop. -/
def Run (st : ClientState) (frames : List Frame) : Except XErr ClientState :=
  if st.client = none then .error .notConnected else runFrames st frames

/-! ## Sequence-id issuance traces (for the Correlator claims) -/

/-- The state after a series of successive `sendCommand` invocations
with the given transport outcomes. -/
def stateAfter (st : ClientState) (outs : List SendOutcome) : ClientState :=
  outs.foldl (fun s o => (sendCommand s o).2) st

/-- The sequence id assigned to the `k`-th invocation (1-based) of a run
of successive `sendCommand` calls: `myseq` is the counter value right
after that invocation's `c.seq++`. -/
def idOfInvocation (st : ClientState) (outs : List SendOutcome) (k : Nat) : Nat :=
  (stateAfter st (outs.take k)).seq

/-! ## Helper lemmas -/

theorem sendCommand_state (st : ClientState) (out : SendOutcome) :
    (sendCommand st out).2
      = if st.client = none then st else { st with seq := fInc st.seq } := by
  unfold sendCommand
  by_cases h : st.client = none
  · simp [h]
  · simp only [if_neg h]
    cases out with
    | writeFail => rfl
    | replied r =>
      cases r with
      | errVal e => rfl
      | dataVal v => cases v <;> rfl

theorem fInc_iterate (s k : Nat) (hs : s ≤ 9007199254740992) :
    fInc^[k] s = min (s + k) 9007199254740992 := by
  induction k generalizing s with
  | zero => simp; omega
  | succ n ih =>
    rw [Function.iterate_succ_apply]
    by_cases h : s < 9007199254740992
    · have h1 : fInc s = s + 1 := by simp [fInc, h]
      rw [h1, ih (s + 1) (by omega)]
      omega
    · have h1 : fInc s = s := by simp [fInc, h]
      rw [h1, ih s hs]
      omega

theorem stateAfter_seq : ∀ (outs : List SendOutcome) (st : ClientState),
    st.client = some () → (stateAfter st outs).seq = fInc^[outs.length] st.seq
  | [], _, _ => rfl
  | o :: os, st, h => by
    have hcl : ¬ st.client = none := by rw [h]; intro hh; cases hh
    have h2 : (sendCommand st o).2 = { st with seq := fInc st.seq } := by
      rw [sendCommand_state, if_neg hcl]
    have hc2 : ((sendCommand st o).2).client = some () := by rw [h2]; exact h
    have hstep : stateAfter st (o :: os) = stateAfter (sendCommand st o).2 os := rfl
    rw [hstep, stateAfter_seq os _ hc2, h2]
    simp [Function.iterate_succ_apply]

theorem cbLoop_skip (q : GoStr → Except Unit (List Val))
    (pre t : List (GoStr × Option Cb))
    (hpre : ∀ kv ∈ pre, ∃ r2, q (Path.toJSONPath kv.1) = .ok r2
      ∧ (r2 = [] ∨ kv.2 = none)) :
    cbLoop q (pre ++ t) = cbLoop q t := by
  induction pre with
  | nil => rfl
  | cons kv rest ih =>
    obtain ⟨r2, hq, hskip⟩ := hpre kv (List.mem_cons_self kv rest)
    obtain ⟨k, v⟩ := kv
    simp only [List.cons_append, cbLoop, hq]
    have hcond : ¬ (0 < r2.length ∧ v.isSome) := by
      rcases hskip with h | h
      · subst h; simp
      · simp only at h; subst h; simp
    rw [if_neg hcond]
    exact ih fun kv2 h2 => hpre kv2 (List.mem_cons_of_mem _ h2)

theorem cbLoop_first (q : GoStr → Except Unit (List Val)) (k : GoStr)
    (f : Cb) (r : List Val) (rest : List (GoStr × Option Cb))
    (hk : q (Path.toJSONPath k) = .ok r) (hr : r ≠ []) :
    cbLoop q ((k, some f) :: rest) = .ok (some r, some f) := by
  simp only [cbLoop, hk]
  rw [if_pos ⟨List.length_pos.mpr hr, rfl⟩]

theorem cbLoop_shape (q : GoStr → Except Unit (List Val)) :
    ∀ cbs, cbLoop q cbs = .error .jpathError
      ∨ cbLoop q cbs = .ok (none, none)
      ∨ ∃ r fc, cbLoop q cbs = .ok (some r, some fc)
  | [] => .inr (.inl rfl)
  | (k, v) :: rest => by
    cases hq : q (Path.toJSONPath k) with
    | error e => simp [cbLoop, hq]
    | ok r =>
      by_cases hcond : 0 < r.length ∧ v.isSome
      · right; right
        obtain ⟨f, hf⟩ := Option.isSome_iff_exists.mp hcond.2
        exact ⟨r, f, by simp only [cbLoop, hq]; rw [if_pos hcond, hf]⟩
      · have : cbLoop q ((k, v) :: rest) = cbLoop q rest := by
          simp only [cbLoop, hq]; rw [if_neg hcond]
        rw [this]
        exact cbLoop_shape q rest

theorem keysOf_cons (kv : GoStr × Option Cb) (l : List (GoStr × Option Cb)) :
    keysOf (kv :: l) = kv.1 :: keysOf l := rfl

theorem mapInsert_cons_eq (k : GoStr) (v v2 : Option Cb)
    (rest : List (GoStr × Option Cb)) (k2 : GoStr) (hk : k2 = k) :
    mapInsert k v ((k2, v2) :: rest) = (k, v) :: rest := by
  simp only [mapInsert]; rw [if_pos hk]

theorem mapInsert_cons_ne (k : GoStr) (v v2 : Option Cb)
    (rest : List (GoStr × Option Cb)) (k2 : GoStr) (hk : ¬ k2 = k) :
    mapInsert k v ((k2, v2) :: rest) = (k2, v2) :: mapInsert k v rest := by
  simp only [mapInsert]; rw [if_neg hk]

theorem mem_keysOf_mapInsert (x k : GoStr) (v : Option Cb) :
    ∀ l, x ∈ keysOf (mapInsert k v l) ↔ (x ∈ keysOf l ∨ x = k)
  | [] => by simp [mapInsert, keysOf]
  | (k2, v2) :: rest => by
    by_cases hk : k2 = k
    · rw [mapInsert_cons_eq k v v2 rest k2 hk, keysOf_cons, keysOf_cons]
      subst hk
      simp only [List.mem_cons]
      tauto
    · rw [mapInsert_cons_ne k v v2 rest k2 hk, keysOf_cons, keysOf_cons]
      simp only [List.mem_cons]
      rw [mem_keysOf_mapInsert x k v rest]
      tauto

theorem mapInsert_nodup (k : GoStr) (v : Option Cb) :
    ∀ l, (keysOf l).Nodup → (keysOf (mapInsert k v l)).Nodup
  | [], _ => by simp [mapInsert, keysOf]
  | (k2, v2) :: rest, h => by
    rw [keysOf_cons, List.nodup_cons] at h
    by_cases hk : k2 = k
    · rw [mapInsert_cons_eq k v v2 rest k2 hk, keysOf_cons, List.nodup_cons]
      subst hk
      exact h
    · rw [mapInsert_cons_ne k v v2 rest k2 hk, keysOf_cons, List.nodup_cons]
      refine ⟨fun hm => ?_, mapInsert_nodup k v rest h.2⟩
      rcases (mem_keysOf_mapInsert k2 k v rest).mp hm with h1 | h1
      · exact h.1 h1
      · exact hk h1

theorem keysOf_mapDelete_sublist (k : GoStr) :
    ∀ l, (keysOf (mapDelete k l)).Sublist (keysOf l)
  | [] => List.Sublist.refl _
  | (k2, v2) :: rest => by
    by_cases hk : k2 = k
    · simp only [mapDelete, if_pos hk, keysOf, List.map_cons]
      exact (List.Sublist.refl _).cons _
    · simp only [mapDelete, if_neg hk, keysOf, List.map_cons]
      exact (keysOf_mapDelete_sublist k rest).cons₂ _

theorem mapDelete_nodup (k : GoStr) (l : List (GoStr × Option Cb))
    (h : (keysOf l).Nodup) : (keysOf (mapDelete k l)).Nodup :=
  (keysOf_mapDelete_sublist k l).nodup h

theorem lookupCb_mapInsert (k : GoStr) (v : Option Cb) :
    ∀ l, lookupCb k (mapInsert k v l) = some v
  | [] => by simp [mapInsert, lookupCb]
  | (k2, v2) :: rest => by
    by_cases hk : k2 = k
    · subst hk; simp [mapInsert, lookupCb]
    · simp only [mapInsert, if_neg hk, lookupCb, if_neg hk]
      exact lookupCb_mapInsert k v rest

theorem countKey_not_mem (k : GoStr) :
    ∀ l, k ∉ keysOf l → countKey k l = 0
  | [], _ => rfl
  | (k2, v2) :: rest, h => by
    simp only [keysOf, List.map_cons, List.mem_cons] at h
    push_neg at h
    have hk : ¬ (k2 = k) := fun he => h.1 he.symm
    simp only [countKey, List.filter_cons, decide_eq_true_eq]
    rw [if_neg hk]
    exact countKey_not_mem k rest (by simp only [keysOf]; exact h.2)

theorem countKey_mapInsert (k : GoStr) (v : Option Cb) :
    ∀ l, (keysOf l).Nodup → countKey k (mapInsert k v l) = 1
  | [], _ => by simp [mapInsert, countKey]
  | (k2, v2) :: rest, h => by
    simp only [keysOf, List.map_cons, List.nodup_cons] at h
    by_cases hk : k2 = k
    · subst hk
      simp only [mapInsert, if_pos rfl, countKey, List.filter_cons,
        decide_eq_true_eq, if_pos rfl]
      have h0 : countKey k2 rest = 0 :=
        countKey_not_mem k2 rest (by simp only [keysOf]; exact h.1)
      simp only [countKey] at h0
      simp [h0]
    · simp only [mapInsert, if_neg hk, countKey, List.filter_cons,
        decide_eq_true_eq, if_neg hk]
      exact countKey_mapInsert k v rest h.2

/-- `Path.toJSONPath` rendered as a prefix plus one dot-prefixed copy of
each segment. -/
theorem toJSONPath_eq (p : GoStr) :
    Path.toJSONPath p = "$.".data ++ (fields p).flatMap (fun s => '.' :: s) :=
  foldl_dot_append (fields p) "$.".data

/-! ## The claims -/

/-- Claim C5, counterexample: on the single-segment path `"Status"` the
rendering the code produces is `"$..Status"` — `"$"` followed by *two*
dots before the first segment — not the `"$.Status"` form the claim
states (one dot before each segment). -/
theorem toJSONPath_not_single_dot_cex :
    Path.toJSONPath "Status".data = "$..Status".data := by decide

/-- Claim C5 (amended): the dot-path rendering is the fixed prefix `"$."`
followed by, for each segment in order, one dot and then the segment —
so the first segment is preceded by two dots (`$..seg1.seg2...`), not
one. -/
theorem toJSONPath_double_dot_form (p : GoStr) :
    Path.toJSONPath p = "$.".data ++ (fields p).flatMap (fun s => '.' :: s) :=
  toJSONPath_eq p

/-- Claim C6: all three renderings preserve the segments of the path in
order and count: the subscribe query's `Query` list and the get
parameters' `Path` list are exactly the segment list, and splitting the
dot-path rendering at dots yields `"$"`, one empty chunk (from the
double dot), and then exactly the segments in order.  The hypothesis
restricts to valid paths whose segments contain no dot, without which
the dot-rendering is not parseable back. -/
theorem renderings_preserve_segments (p : GoStr)
    (h : ∀ s ∈ fields p, '.' ∉ s) :
    (Path.toSubQuery p).Query = fields p ∧
    (Path.toGetParams p).Path = fields p ∧
    splitOnDot (Path.toJSONPath p) = "$".data :: [] :: fields p := by
  refine ⟨rfl, rfl, ?_⟩
  rw [toJSONPath_eq]
  show splitOnDotAux ('$' :: '.' :: (fields p).flatMap (fun s => '.' :: s)) [] = _
  have e1 : splitOnDotAux ('$' :: '.' :: (fields p).flatMap (fun s => '.' :: s)) []
      = splitOnDotAux ('.' :: (fields p).flatMap (fun s => '.' :: s)) ['$'] := by
    simp [splitOnDotAux]
  have e2 : splitOnDotAux ('.' :: (fields p).flatMap (fun s => '.' :: s)) ['$']
      = ['$'] :: splitOnDotAux ((fields p).flatMap (fun s => '.' :: s)) [] := by
    simp [splitOnDotAux]
  rw [e1, e2, splitOnDotAux_join (fields p) h []]
  rfl

/-- Claim C6, witness at the catalogued path `"Status Audio Volume"`. -/
theorem renderings_preserve_segments_witness :
    (Path.toSubQuery "Status Audio Volume".data).Query
        = fields "Status Audio Volume".data ∧
    (Path.toGetParams "Status Audio Volume".data).Path
        = fields "Status Audio Volume".data ∧
    splitOnDot (Path.toJSONPath "Status Audio Volume".data)
        = "$".data :: [] :: fields "Status Audio Volume".data :=
  renderings_preserve_segments "Status Audio Volume".data (by decide)

/-- Claim C7: credential encoding is the (deterministic) function
`encCreds`; it fails with `InvalidCredentials` exactly when the user or
the password is empty, and otherwise produces the fixed prefix `"auth-"`
followed by the unpadded URL-safe base64 encoding of `user:password`, a
string free of `'+'`, `'/'` and `'='`.  The hypothesis restricts inputs
to ASCII, where `bytesOf` is the UTF-8 byte sequence Go's `[]byte`
produces. -/
theorem encCreds_spec (u p : GoStr) (h : ∀ c ∈ u ++ p, c.toNat < 128) :
    (encCreds u p = .error .invalidCredentials ↔ (u = [] ∨ p = [])) ∧
    ∀ out, encCreds u p = .ok out →
      out = credMarker ++ base64UrlNoPad (bytesOf (u ++ [':'] ++ p)) ∧
      ∀ c ∈ out, c ≠ '+' ∧ c ≠ '/' ∧ c ≠ '=' := by
  constructor
  · constructor
    · intro he
      by_cases hup : u = [] ∨ p = []
      · exact hup
      · unfold encCreds at he; rw [if_neg hup] at he; cases he
    · intro hup
      unfold encCreds; rw [if_pos hup]
  · intro out hout
    by_cases hup : u = [] ∨ p = []
    · unfold encCreds at hout; rw [if_pos hup] at hout; cases hout
    · unfold encCreds at hout
      rw [if_neg hup] at hout
      injection hout with hout
      have hbytes : ∀ b ∈ bytesOf (u ++ [':'] ++ p), b < 256 := by
        intro b hb
        rcases List.mem_map.mp hb with ⟨c, hc, hcb⟩
        subst hcb
        rcases List.mem_append.mp hc with hcu | hcp
        · rcases List.mem_append.mp hcu with hcu2 | hcol
          · have := h c (List.mem_append.mpr (.inl hcu2)); omega
          · rw [List.mem_singleton.mp hcol]; decide
        · have := h c (List.mem_append.mpr (.inr hcp)); omega
      have hrefine := urlSafeReplace_base64 (bytesOf (u ++ [':'] ++ p)) hbytes
      constructor
      · rw [← hout, hrefine]
      · intro c hc
        rw [← hout] at hc
        rcases List.mem_append.mp hc with hcm | hcr
        · have hsafe : ∀ x ∈ credMarker, x ≠ '+' ∧ x ≠ '/' ∧ x ≠ '=' := by decide
          exact hsafe c hcm
        · exact urlSafeReplace_safe _ c hcr

/-- Claim C7, witness at `encode("bob","secret")`. -/
theorem encCreds_spec_witness :
    (encCreds "bob".data "secret".data = .error .invalidCredentials
        ↔ ("bob".data = ([] : GoStr) ∨ "secret".data = ([] : GoStr))) ∧
    ∀ out, encCreds "bob".data "secret".data = .ok out →
      out = credMarker ++ base64UrlNoPad (bytesOf ("bob".data ++ [':'] ++ "secret".data)) ∧
      ∀ c ∈ out, c ≠ '+' ∧ c ≠ '/' ∧ c ≠ '=' :=
  encCreds_spec "bob".data "secret".data (by decide)

/-- Claim C1, counterexample: with the registry holding `['a']` with an
absent (nil) callback followed by `['b']` with callback `7`, and a
payload on which both queries yield the non-empty result `[0]`, the
first subscription whose query yields a non-empty result is `['a']`,
yet dispatch invokes the *later* matching subscription's callback `7` —
the claim's "later matching subscriptions are not invoked" fails. -/
theorem runCallbacks_nil_callback_skipped_cex :
    runCallbacks (fun _ => Except.ok [0]) [(['a'], none), (['b'], some 7)]
      = .ok ([0], 7) := rfl

/-- Claim C1 (amended): dispatch invokes the first subscription whose
query yields a non-empty result *and whose callback is present*; a
matching subscription with an absent callback is skipped, not
dispatched.  First part: if every earlier entry either yields an empty
result or has an absent callback, and entry `(k, some f)` matches with
non-empty `r`, the dispatch result is exactly `(r, f)` (so no later
subscription is invoked).  Second part: if every subscription yields an
empty result or has an absent callback, dispatch fails with
`MissingData`. -/
theorem runCallbacks_first_present_match (q : GoStr → Except Unit (List Val)) :
    (∀ (pre rest : List (GoStr × Option Cb)) (k : GoStr) (f : Cb) (r : List Val),
      (∀ kv ∈ pre, ∃ r2, q (Path.toJSONPath kv.1) = .ok r2 ∧ (r2 = [] ∨ kv.2 = none)) →
      q (Path.toJSONPath k) = .ok r → r ≠ [] →
      runCallbacks q (pre ++ (k, some f) :: rest) = .ok (r, f)) ∧
    (∀ cbs : List (GoStr × Option Cb),
      (∀ kv ∈ cbs, ∃ r2, q (Path.toJSONPath kv.1) = .ok r2 ∧ (r2 = [] ∨ kv.2 = none)) →
      runCallbacks q cbs = .error .missingData) := by
  constructor
  · intro pre rest k f r hpre hk hr
    unfold runCallbacks
    rw [cbLoop_skip q pre _ hpre, cbLoop_first q k f r rest hk hr]
  · intro cbs hall
    unfold runCallbacks
    have hnil := cbLoop_skip q cbs [] hall
    rw [List.append_nil] at hnil
    rw [hnil]
    rfl

/-- Claim C1, witness: a lone present-callback subscription is
dispatched when its query matches; it yields `MissingData` when the
query result is empty. -/
theorem runCallbacks_first_present_match_witness :
    runCallbacks (fun _ => Except.ok [0]) [(['b'], some 5)] = .ok ([0], 5) ∧
    runCallbacks (fun _ => Except.ok []) [(['b'], some 5)] = .error .missingData := by
  constructor
  · exact (runCallbacks_first_present_match (fun _ => Except.ok [0])).1 [] [] ['b'] 5 [0]
      (fun kv hkv => absurd hkv (List.not_mem_nil kv)) rfl (by decide)
  · exact (runCallbacks_first_present_match (fun _ => Except.ok [])).2 [(['b'], some 5)]
      (fun kv _ => ⟨[], rfl, Or.inl rfl⟩)

/-- Claim C8, counterexample: the registry holds a single subscription
whose query yields the non-empty result `[0]` but whose callback
reference is absent — the claim predicts `MissingCallback`, the code
skips the entry inside the loop (the `len(r) > 0 && v != nil` guard)
and then fails with `MissingData`. -/
theorem runCallbacks_nil_callback_missingData_cex :
    runCallbacks (fun _ => Except.ok [0]) [(['a'], (none : Option Cb))]
      = .error .missingData := rfl

/-- Claim C8 (amended): a matching subscription whose callback is absent
is skipped rather than reported; every dispatch ends in a query parse
error, in `MissingData`, or in a successful dispatch of a present
callback — the `MissingCallback` branch of `runCallbacks` is
unreachable, because the loop only records a match whose callback is
non-nil. -/
theorem runCallbacks_never_missingCallback (q : GoStr → Except Unit (List Val))
    (cbs : List (GoStr × Option Cb)) :
    runCallbacks q cbs = .error .jpathError ∨
    runCallbacks q cbs = .error .missingData ∨
    ∃ r f, runCallbacks q cbs = .ok (r, f) := by
  rcases cbLoop_shape q cbs with h | h | ⟨r, f, h⟩
  · left; unfold runCallbacks; rw [h]
  · right; left; unfold runCallbacks; rw [h]
  · right; right; exact ⟨r, f, by unfold runCallbacks; rw [h]⟩

/-- Claim C2, counterexample: with one pending request (id 5), a reply
frame carrying the unknown id 1 makes `Run` return
`ErrMissingChannel` — the receive loop terminates and the following
frame is never read, although that following frame on its own (second
conjunct) is processed fine.  "Does not crash" holds only in the sense
that there is no panic; the loop does not continue. -/
theorem unmatched_reply_stops_loop_cex :
    Run ⟨some (), 0, [], [5]⟩
        [Frame.successMsg (some 1) RVal.mapVal, Frame.successMsg (some 5) RVal.mapVal]
      = .error .missingChannel ∧
    Run ⟨some (), 0, [], [5]⟩ [Frame.successMsg (some 5) RVal.mapVal]
      = .ok ⟨some (), 0, [], [5]⟩ := ⟨rfl, rfl⟩

/-- Claim C2 (amended): a reply frame whose correlation id has no
pending entry yields `ProtocolError(MissingChannel)`, and that error is
fatal to the receive loop (spec section 7): `runLoop` propagates it,
`Run` returns it, and the frames behind it are never read.  The loop
does not panic — it exits by returning the error. -/
theorem unmatched_reply_fatal_missingChannel (st : ClientState) (id : Nat)
    (res : RVal) (rest : List Frame) (hc : st.client = some ())
    (hid : id ∉ st.responseChans) :
    Run st (Frame.successMsg (some id) res :: rest) = .error .missingChannel := by
  have hcl : ¬ st.client = none := by rw [hc]; exact fun h => by cases h
  unfold Run
  rw [if_neg hcl]
  have hrl : runLoop st (Frame.successMsg (some id) res) = .error .missingChannel := by
    show (if id ∈ st.responseChans then Except.ok ()
        else Except.error XErr.missingChannel).map (fun _ => st)
      = Except.error XErr.missingChannel
    rw [if_neg hid]
    rfl
  simp only [runFrames, hrl]

/-- Claim C2, witness: the amended theorem at the concrete unmatched
id 1 against a table holding only id 5, with one further frame queued
behind the bad reply. -/
theorem unmatched_reply_fatal_witness :
    Run ⟨some (), 0, [], [5]⟩
        [Frame.successMsg (some 1) RVal.mapVal, Frame.requestMsg]
      = .error .missingChannel :=
  unmatched_reply_fatal_missingChannel ⟨some (), 0, [], [5]⟩ 1 RVal.mapVal
    [Frame.requestMsg] rfl (by decide)

theorem sendCommand_callbacks (st : ClientState) (out : SendOutcome) :
    ((sendCommand st out).2).callbacks = st.callbacks := by
  rw [sendCommand_state]
  by_cases h : st.client = none
  · rw [if_pos h]
  · rw [if_neg h]

theorem subscribe_eq (st : ClientState) (p : GoStr) (cb : Option Cb)
    (out : SendOutcome) :
    Subscribe st p cb out
      = match (sendCommand st out).1 with
        | .error e => (.error e, (sendCommand st out).2)
        | .ok _ => (.ok (), { (sendCommand st out).2 with
            callbacks := mapInsert p cb ((sendCommand st out).2).callbacks }) := by
  unfold Subscribe
  rcases hsc : sendCommand st out with ⟨r, s2⟩
  cases r <;> simp

theorem subscribe_callbacks (st : ClientState) (p : GoStr) (cb : Option Cb)
    (out : SendOutcome) :
    ((Subscribe st p cb out).2).callbacks = st.callbacks ∨
    ((Subscribe st p cb out).2).callbacks = mapInsert p cb st.callbacks := by
  rw [subscribe_eq]
  cases hr : (sendCommand st out).1 with
  | error e =>
    left
    show ((sendCommand st out).2).callbacks = st.callbacks
    exact sendCommand_callbacks st out
  | ok v =>
    right
    show mapInsert p cb ((sendCommand st out).2).callbacks = mapInsert p cb st.callbacks
    rw [sendCommand_callbacks]

theorem subscribe_callbacks_ok (st : ClientState) (p : GoStr) (cb : Option Cb)
    (out : SendOutcome) (h : (Subscribe st p cb out).1 = .ok ()) :
    ((Subscribe st p cb out).2).callbacks = mapInsert p cb st.callbacks := by
  rw [subscribe_eq] at h ⊢
  cases hr : (sendCommand st out).1 with
  | error e =>
    rw [hr] at h
    exact absurd h (by intro hh; cases hh)
  | ok v =>
    show mapInsert p cb ((sendCommand st out).2).callbacks = mapInsert p cb st.callbacks
    rw [sendCommand_callbacks]

theorem cancelFunc_callbacks (st : ClientState) (p : GoStr) (out : SendOutcome) :
    ((cancelFunc st p out).2).callbacks = mapDelete p st.callbacks := by
  unfold cancelFunc
  rw [sendCommand_callbacks]

/-- Claim C4: `Subscribe` records the `{path, callback}` pair only when
the subscribe command succeeds.  If `sendCommand` fails, `Subscribe`
returns the same error and the registry is exactly the caller's
registry (no entry added); if it succeeds, `Subscribe` returns the
cancel handle result and the registry with the pair recorded. -/
theorem subscribe_records_only_on_success (st : ClientState) (p : GoStr)
    (cb : Option Cb) (out : SendOutcome) :
    (∀ e, (sendCommand st out).1 = .error e →
      Subscribe st p cb out = (.error e, (sendCommand st out).2) ∧
      ((Subscribe st p cb out).2).callbacks = st.callbacks) ∧
    (∀ v, (sendCommand st out).1 = .ok v →
      Subscribe st p cb out
        = (.ok (), { (sendCommand st out).2 with
            callbacks := mapInsert p cb st.callbacks })) := by
  constructor
  · intro e he
    constructor
    · rw [subscribe_eq, he]
    · rw [subscribe_eq, he]
      exact sendCommand_callbacks st out
  · intro v hv
    rw [subscribe_eq, hv]
    show (Except.ok (), { (sendCommand st out).2 with
        callbacks := mapInsert p cb ((sendCommand st out).2).callbacks })
      = (Except.ok (), { (sendCommand st out).2 with
          callbacks := mapInsert p cb st.callbacks })
    rw [sendCommand_callbacks]

/-- Claim C4, witness: against a disconnected client the subscribe
command fails with `NotConnected` and the registry stays empty; against
a connected client whose subscribe command is answered with a success
object, the pair is recorded. -/
theorem subscribe_records_only_on_success_witness :
    (Subscribe ⟨none, 0, [], []⟩ ['a'] (some 1)
        (SendOutcome.replied (ChanVal.dataVal RVal.mapVal))
      = (.error .notConnected, ⟨none, 0, [], []⟩) ∧
     ((Subscribe ⟨none, 0, [], []⟩ ['a'] (some 1)
        (SendOutcome.replied (ChanVal.dataVal RVal.mapVal))).2).callbacks
      = ([] : List (GoStr × Option Cb))) ∧
    Subscribe ⟨some (), 0, [], []⟩ ['a'] (some 1)
        (SendOutcome.replied (ChanVal.dataVal RVal.mapVal))
      = (.ok (), ⟨some (), 1, [(['a'], some 1)], []⟩) := by
  constructor
  · exact (subscribe_records_only_on_success ⟨none, 0, [], []⟩ ['a'] (some 1)
      (SendOutcome.replied (ChanVal.dataVal RVal.mapVal))).1 .notConnected rfl
  · have h := (subscribe_records_only_on_success ⟨some (), 0, [], []⟩ ['a'] (some 1)
      (SendOutcome.replied (ChanVal.dataVal RVal.mapVal))).2 RVal.mapVal rfl
    rw [h]
    rfl

/-- Claim C9: `Close` has no nil guard, unlike `sendCommand` (line 537)
and `Run` (line 195): on a client that never connected (`client` is a
nil interface value) the call `c.client.Close()` dereferences nil and
panics, while `sendCommand` and `Run` return `ErrNotConnected`. -/
theorem close_nil_client_panics (st : ClientState) (und : Except Unit Unit)
    (out : SendOutcome) (frames : List Frame) (h : st.client = none) :
    CloseClient st und = .nilPanic ∧
    (sendCommand st out).1 = .error .notConnected ∧
    Run st frames = .error .notConnected := by
  refine ⟨?_, ?_, ?_⟩
  · unfold CloseClient
    rw [h]
  · unfold sendCommand
    rw [if_pos h]
  · unfold Run
    rw [if_pos h]

/-- Claim C9, witness at the pristine, never-connected client state. -/
theorem close_nil_client_panics_witness :
    CloseClient ⟨none, 0, [], []⟩ (.ok ()) = .nilPanic ∧
    (sendCommand ⟨none, 0, [], []⟩ SendOutcome.writeFail).1 = .error .notConnected ∧
    Run ⟨none, 0, [], []⟩ [] = .error .notConnected :=
  close_nil_client_panics ⟨none, 0, [], []⟩ (.ok ()) SendOutcome.writeFail [] rfl

/-- A fresh session that issues `2^53` successive commands reaches the
counter value `2^53 = 9007199254740992` — the saturated state the C3
counterexample starts from is reachable while the session is alive. -/
theorem float_cap_reachable :
    (stateAfter ⟨some (), 0, [], []⟩
        (List.replicate 9007199254740992 SendOutcome.writeFail)).seq
      = 9007199254740992 := by
  rw [stateAfter_seq _ _ rfl, List.length_replicate, fInc_iterate 0 _ (by omega)]
  omega

/-- Claim C3, counterexample: the counter is a float64.  In the session
state reached after `2^53` commands (`float_cap_reachable`), two further
successive invocations are both assigned the id
`9007199254740992 = 2^53`: `c.seq++` at `2^53` is a no-op in double
precision, so the ids of successive invocations are neither pairwise
distinct nor strictly increasing, and the id `2^53` is reused while the
session is alive. -/
theorem seq_id_reused_at_float_cap_cex :
    idOfInvocation ⟨some (), 9007199254740992, [], []⟩
        [SendOutcome.writeFail, SendOutcome.writeFail] 1 = 9007199254740992 ∧
    idOfInvocation ⟨some (), 9007199254740992, [], []⟩
        [SendOutcome.writeFail, SendOutcome.writeFail] 2 = 9007199254740992 :=
  ⟨rfl, rfl⟩

/-- Claim C3 (amended): within one session the sequence ids of
successive command invocations are pairwise distinct and strictly
increasing in issuance order as long as the float64 counter stays below
`2^53` — that is, for the first `2^53 - seq₀` invocations.  Beyond that
the counter saturates (see the counterexample); below it the `j`-th id
is strictly smaller than the `k`-th for `j < k`, hence all ids are
distinct and none is reused. -/
theorem seq_ids_strictly_increasing_below_cap (st : ClientState)
    (outs : List SendOutcome) (j k : Nat) (hc : st.client = some ())
    (hjk : j < k) (hk : k ≤ outs.length)
    (hcap : st.seq + k ≤ 9007199254740992) :
    idOfInvocation st outs j < idOfInvocation st outs k := by
  unfold idOfInvocation
  rw [stateAfter_seq _ _ hc, stateAfter_seq _ _ hc]
  have hj' : (outs.take j).length = j := by
    rw [List.length_take]; omega
  have hk' : (outs.take k).length = k := by
    rw [List.length_take]; omega
  rw [hj', hk', fInc_iterate _ _ (by omega), fInc_iterate _ _ (by omega)]
  omega

/-- Claim C3, witness: the first id issued by a fresh session is
smaller than the second. -/
theorem seq_ids_increasing_witness :
    idOfInvocation ⟨some (), 0, [], []⟩
        [SendOutcome.writeFail, SendOutcome.writeFail] 1
      < idOfInvocation ⟨some (), 0, [], []⟩
          [SendOutcome.writeFail, SendOutcome.writeFail] 2 :=
  seq_ids_strictly_increasing_below_cap ⟨some (), 0, [], []⟩
    [SendOutcome.writeFail, SendOutcome.writeFail] 1 2 rfl
    (by decide) (by decide) (by decide)

/-- Claim C10: the registry keeps at most one callback per path.  With
unique keys in the registry: a `Subscribe` and a `cancelFunc` both
preserve key uniqueness, `ConnectContext`'s reset trivially does, and
after a *successful* `Subscribe` the path maps to the newly supplied
callback (a second subscribe on the same path replaces the old
callback in place) and exactly one entry carries the path. -/
theorem registry_single_entry_per_path (st : ClientState) (p : GoStr)
    (cb : Option Cb) (out out2 : SendOutcome)
    (hnd : (keysOf st.callbacks).Nodup) :
    (keysOf ((Subscribe st p cb out).2).callbacks).Nodup ∧
    (keysOf ((cancelFunc st p out2).2).callbacks).Nodup ∧
    (keysOf (connectInit st).callbacks).Nodup ∧
    ((Subscribe st p cb out).1 = .ok () →
      lookupCb p ((Subscribe st p cb out).2).callbacks = some cb ∧
      countKey p ((Subscribe st p cb out).2).callbacks = 1) := by
  refine ⟨?_, ?_, ?_, ?_⟩
  · rcases subscribe_callbacks st p cb out with h | h
    · rw [h]; exact hnd
    · rw [h]; exact mapInsert_nodup p cb st.callbacks hnd
  · rw [cancelFunc_callbacks]
    exact mapDelete_nodup p st.callbacks hnd
  · simp [connectInit, keysOf]
  · intro hok
    rw [subscribe_callbacks_ok st p cb out hok]
    exact ⟨lookupCb_mapInsert p cb st.callbacks,
      countKey_mapInsert p cb st.callbacks hnd⟩

/-- Claim C10, witness: re-subscribing path `['a']` (already registered
with callback `1`) with callback `2` against a successful subscribe
command replaces the entry: the path maps to `2` and exactly one entry
remains. -/
theorem registry_single_entry_per_path_witness :
    (keysOf ((Subscribe ⟨some (), 0, [(['a'], some 1)], []⟩ ['a'] (some 2)
        (SendOutcome.replied (ChanVal.dataVal RVal.mapVal))).2).callbacks).Nodup ∧
    (keysOf ((cancelFunc ⟨some (), 0, [(['a'], some 1)], []⟩ ['a']
        (SendOutcome.replied (ChanVal.dataVal RVal.mapVal))).2).callbacks).Nodup ∧
    (keysOf (connectInit ⟨some (), 0, [(['a'], some 1)], []⟩).callbacks).Nodup ∧
    ((Subscribe ⟨some (), 0, [(['a'], some 1)], []⟩ ['a'] (some 2)
        (SendOutcome.replied (ChanVal.dataVal RVal.mapVal))).1 = .ok () →
      lookupCb ['a'] ((Subscribe ⟨some (), 0, [(['a'], some 1)], []⟩ ['a'] (some 2)
        (SendOutcome.replied (ChanVal.dataVal RVal.mapVal))).2).callbacks
        = some (some 2) ∧
      countKey ['a'] ((Subscribe ⟨some (), 0, [(['a'], some 1)], []⟩ ['a'] (some 2)
        (SendOutcome.replied (ChanVal.dataVal RVal.mapVal))).2).callbacks = 1) :=
  registry_single_entry_per_path ⟨some (), 0, [(['a'], some 1)], []⟩ ['a'] (some 2)
    (SendOutcome.replied (ChanVal.dataVal RVal.mapVal))
    (SendOutcome.replied (ChanVal.dataVal RVal.mapVal)) (by decide)
